import Mathlib

/-!
Shallow embedding of a freelist-based memory allocator (Rust, `src/alloc.rs`).

Addresses are modelled as natural-number byte offsets; the main reservation
starts at offset 0 and occupies `[0, MAX_HEAP_SIZE)`.  Machine words are
`usize` on a 64-bit target, so `reverse_bits` is 64-bit bit reversal and the
header occupies 8 bytes.  Memory is modelled as a map from header addresses to
the stored header word; the intrusive singly linked free lists are modelled as
`List Nat` of header addresses (the `next` chain materialised).  The fallible
OS layer (`mod sys`) is driven by an oracle recording which syscalls succeed.
Operations thread the state explicitly and return it also on error, mirroring
Rust's in-place mutation of `self` before an early `?` return.
-/

namespace FreelistAlloc

/-- Helper for `usize::reverse_bits`: reverse the low `n` bits of `x` into `acc`. -/
def reverseBitsAux : Nat → Nat → Nat → Nat
  | 0, _, acc => acc
  | n + 1, x, acc => reverseBitsAux n (x / 2) (acc * 2 + x % 2)

/-- Model of `usize::reverse_bits` on a 64-bit target. -/
def reverseBits64 (x : Nat) : Nat := reverseBitsAux 64 (x % 2 ^ 64) 0

/-- Source constant `MAX_HEAP_SIZE = 2 << 32`. -/
def MAX_HEAP_SIZE : Nat := 2 <<< 32

/-- Source constant `SUBHEAP_COUNT = 7`. -/
def SUBHEAP_COUNT : Nat := 7

/-- Size of `Header` on a 64-bit target: one `usize` word. -/
def headerSize : Nat := 8

/-- Source function `block_size_of_subheap`: `2 << (class_of_subheap + 3)`. -/
def block_size_of_subheap (class_of_subheap : Nat) : Nat := 2 <<< (class_of_subheap + 3)

/-- Source function `aligned_size`, exactly as written there:
`original + (original.reverse_bits() & mask)` with `mask = alignment - 1`. -/
def aligned_size (original alignment : Nat) : Nat :=
  original + (reverseBits64 original &&& (alignment - 1))

/-- Source constant `MAX_BLOCK_SIZE = block_size_of_subheap(SUBHEAP_COUNT - 1)`. -/
def MAX_BLOCK_SIZE : Nat := block_size_of_subheap (SUBHEAP_COUNT - 1)

/-- Model of `sys::CommitStrategy` (derive Ord: `Mprotect < MmapFixed`). -/
inductive CommitStrategy where
  | Mprotect
  | MmapFixed
deriving DecidableEq, Repr

/-- The derived `<=` of `sys::CommitStrategy` (declaration order). -/
def CommitStrategy.le : CommitStrategy → CommitStrategy → Bool
  | .Mprotect, _ => true
  | .MmapFixed, .MmapFixed => true
  | .MmapFixed, .Mprotect => false

/-- Oracle for the fallible OS layer: which syscalls would succeed, and the
address a fresh `sys::alloc` mapping would get. -/
structure SysOracle where
  mprotectOk : Bool
  mmapFixedOk : Bool
  releaseOk : Bool
  allocResult : Option Nat
deriving Repr

/-- Model of `sys::commit(addr, len, prefer_strategy)`: try `mprotect` when the
preferred strategy ranks at or below `Mprotect`, fall back to a
`MAP_FIXED` remap, and report the strategy that worked. -/
def sysCommit (o : SysOracle) (_addr _len : Nat) (prefer_strategy : CommitStrategy) :
    Except String CommitStrategy :=
  if CommitStrategy.le prefer_strategy .Mprotect ∧ o.mprotectOk then
    .ok .Mprotect
  else if o.mmapFixedOk then
    .ok .MmapFixed
  else
    .error "commit failed"

/-- Model of `sys::alloc(len)`: fresh independently backed read/write mapping. -/
def sysAlloc (o : SysOracle) (_len : Nat) : Except String Nat :=
  match o.allocResult with
  | none => .error "mmap failed"
  | some addr => .ok addr

/-- Model of `sys::release(addr, len)`: `munmap`. -/
def sysRelease (o : SysOracle) (_addr _len : Nat) : Except String Unit :=
  if o.releaseOk then .ok () else .error "munmap failed"

/-- The allocator state (`pub struct Allocator`), plus a word-addressed memory
holding the header words the code writes. The reservation start is offset 0. -/
structure AllocatorState where
  pagesize : Nat
  heap_end : Nat
  free_lists : Nat → List Nat
  active_heap_end : Nat
  commited_heap_end : Nat
  prefer_commit_strategy : CommitStrategy
  mem : Nat → Nat

/-- Write the word `v` at address `a`. -/
def memWrite (m : Nat → Nat) (a v : Nat) : Nat → Nat :=
  fun x => if x = a then v else m x

/-- Replace the free list of class `c`. -/
def listsWrite (f : Nat → List Nat) (c : Nat) (l : List Nat) : Nat → List Nat :=
  fun x => if x = c then l else f x

/-- Model of `Allocator::init()`: reserve `MAX_HEAP_SIZE`, all cursors at the
reservation start, empty free lists, prefer `mprotect`.  The page size is the
oracle value of `sys::get_pagesize`; the `assert!(MAX_HEAP_SIZE % pagesize == 0)`
is modelled as the failure case. -/
def Allocator.init (pagesize : Nat) : Option AllocatorState :=
  if MAX_HEAP_SIZE % pagesize = 0 then
    some { pagesize := pagesize
           heap_end := MAX_HEAP_SIZE
           free_lists := fun _ => []
           active_heap_end := 0
           commited_heap_end := 0
           prefer_commit_strategy := .Mprotect
           mem := fun _ => 0 }
  else
    none

/-- Model of `Allocator::extend_active_heap_end(class_of_subheap)`: returns the header
address of a freshly carved block, after bounds check and (if needed) commit. -/
def extend_active_heap_end (o : SysOracle) (s : AllocatorState) (class_of_subheap : Nat) :
    Except String Nat × AllocatorState :=
  let allocated_size := headerSize + block_size_of_subheap class_of_subheap
  let new_active_heap_end := s.active_heap_end + allocated_size
  if s.heap_end < new_active_heap_end then
    (.error "Failed to extend heap size.", s)
  else if s.commited_heap_end < new_active_heap_end then
    let committed_size := aligned_size (new_active_heap_end - s.active_heap_end) s.pagesize
    match sysCommit o s.commited_heap_end committed_size s.prefer_commit_strategy with
    | .error e => (.error e, s)
    | .ok strategy =>
        (.ok s.active_heap_end,
         { s with prefer_commit_strategy := strategy
                  commited_heap_end := s.commited_heap_end + committed_size
                  active_heap_end := new_active_heap_end
                  mem := memWrite s.mem s.active_heap_end class_of_subheap })
  else
    (.ok s.active_heap_end,
     { s with active_heap_end := new_active_heap_end
              mem := memWrite s.mem s.active_heap_end class_of_subheap })

/-- Model of `Allocator::alloc_on_subheap(class_of_subheap)`: pop the free list head if
any, else grow the heap; either way return the payload address (header + 8). -/
def alloc_on_subheap (o : SysOracle) (s : AllocatorState) (class_of_subheap : Nat) :
    Except String Nat × AllocatorState :=
  match s.free_lists class_of_subheap with
  | [] =>
      match extend_active_heap_end o s class_of_subheap with
      | (.error e, s') => (.error e, s')
      | (.ok allocated_ptr, s') => (.ok (allocated_ptr + headerSize), s')
  | free_ptr :: rest =>
      (.ok (free_ptr + headerSize),
       { s with free_lists := listsWrite s.free_lists class_of_subheap rest })

/-- Model of `Allocator::free_on_subheap(addr, class_of_subheap)`: push the block onto
the head of its class's free list (the node's `next` field is the old head,
materialised here by consing onto the list). Always `Ok(())`. -/
def free_on_subheap (s : AllocatorState) (addr class_of_subheap : Nat) :
    Except String Unit × AllocatorState :=
  (.ok (),
   { s with free_lists :=
       listsWrite s.free_lists class_of_subheap (addr :: s.free_lists class_of_subheap) })

/-- Model of `Allocator::alloc_on_external(len)`: map a fresh region of
`aligned_size(len + headerSize, pagesize)` bytes, write the Header holding that
size at the region base — and return the base itself (`allocated_ptr.cast()`),
exactly as the source does. -/
def alloc_on_external (o : SysOracle) (s : AllocatorState) (len : Nat) :
    Except String Nat × AllocatorState :=
  let allocated_size := aligned_size (len + headerSize) s.pagesize
  match sysAlloc o allocated_size with
  | .error e => (.error e, s)
  | .ok allocated_ptr =>
      (.ok allocated_ptr,
       { s with mem := memWrite s.mem allocated_ptr allocated_size })

/-- Model of `Allocator::free_on_external(addr, size)`: release the region. -/
def free_on_external (o : SysOracle) (s : AllocatorState) (addr size : Nat) :
    Except String Unit × AllocatorState :=
  (sysRelease o addr size, s)

/-- Model of `Allocator::alloc_by_size(len)`: dispatch pooled vs external; the pooled
path scans classes `0..SUBHEAP_COUNT` for the first fitting one, falling back
to the largest class. -/
def alloc_by_size (o : SysOracle) (s : AllocatorState) (len : Nat) :
    Except String Nat × AllocatorState :=
  if len ≤ MAX_BLOCK_SIZE then
    match (List.range SUBHEAP_COUNT).find? (fun c => len ≤ block_size_of_subheap c) with
    | some class_of_subheap => alloc_on_subheap o s class_of_subheap
    | none => alloc_on_subheap o s (SUBHEAP_COUNT - 1)
  else
    alloc_on_external o s len

/-- Model of `Allocator::free(ptr)`: read the header word just before `ptr` and route by
comparison with `MAX_BLOCK_SIZE`. -/
def Allocator.free (o : SysOracle) (s : AllocatorState) (ptr : Nat) :
    Except String Unit × AllocatorState :=
  let allocated_ptr := ptr - headerSize
  let size_or_class_of_subheap := s.mem allocated_ptr
  if size_or_class_of_subheap ≤ MAX_BLOCK_SIZE then
    free_on_subheap s allocated_ptr size_or_class_of_subheap
  else
    free_on_external o s allocated_ptr size_or_class_of_subheap

/-! ### Invariants and concrete test fixtures -/

/-- Inductive invariant of reachable allocator states.  Because the source's
`aligned_size` never rounds up (see `aligned_size_small`), the committed cursor
always coincides exactly with the active cursor. -/
def Inv (s : AllocatorState) : Prop :=
  s.active_heap_end = s.commited_heap_end ∧
  s.commited_heap_end ≤ s.heap_end ∧
  s.heap_end = MAX_HEAP_SIZE ∧
  s.pagesize ∣ MAX_HEAP_SIZE

/-- Free-list well-formedness: every node on class `c`'s list still carries the
header word `c` that `extend_active_heap_end` wrote when the block was carved
(`free_on_subheap` reuses only the `next` field, never the header). -/
def WFfree (s : AllocatorState) : Prop :=
  ∀ c a, a ∈ s.free_lists c → s.mem a = c

/-- Oracle on which every syscall succeeds; external mappings land at 8192. -/
def okOracle : SysOracle :=
  { mprotectOk := true, mmapFixedOk := true, releaseOk := true, allocResult := some 8192 }

/-- Oracle on which both commit strategies fail. -/
def noCommitOracle : SysOracle :=
  { mprotectOk := false, mmapFixedOk := false, releaseOk := true, allocResult := some 8192 }

/-- Oracle on which `munmap` fails. -/
def noReleaseOracle : SysOracle :=
  { mprotectOk := true, mmapFixedOk := true, releaseOk := false, allocResult := some 8192 }

/-- The state `Allocator::init` produces for a 4096-byte page size. -/
def initState : AllocatorState :=
  { pagesize := 4096
    heap_end := MAX_HEAP_SIZE
    free_lists := fun _ => []
    active_heap_end := 0
    commited_heap_end := 0
    prefer_commit_strategy := .Mprotect
    mem := fun _ => 0 }

/-- A state whose pooled region is exhausted (bump cursor at the heap end). -/
def exhaustedState : AllocatorState :=
  { initState with active_heap_end := MAX_HEAP_SIZE, commited_heap_end := MAX_HEAP_SIZE }

/-- A state holding a live external-style allocation: every header word reads
2000 (> `MAX_BLOCK_SIZE`). -/
def externalHeaderState : AllocatorState :=
  { initState with mem := fun _ => 2000 }

/-! ### Arithmetic facts about `reverse_bits` and `aligned_size`

The source "rounds" with `original + (original.reverse_bits() & (alignment-1))`.
For any `original < 2 ^ 11` (all pooled block sizes plus header) the reversed
bits live in positions ≥ 53, so masking with any `alignment - 1` where
`alignment` divides `MAX_HEAP_SIZE = 2 ^ 33` yields 0: `aligned_size` is the
identity there, i.e. no page rounding happens at all. -/

lemma reverseBitsAux_zero (n : Nat) : ∀ acc, reverseBitsAux n 0 acc = acc * 2 ^ n := by
  induction n with
  | zero => intro acc; simp [reverseBitsAux]
  | succ n ih =>
      intro acc
      show reverseBitsAux n 0 (acc * 2 + 0) = acc * 2 ^ (n + 1)
      rw [ih]
      ring

lemma reverseBitsAux_dvd (m : Nat) : ∀ n x acc, x < 2 ^ m → m ≤ n →
    2 ^ (n - m) ∣ reverseBitsAux n x acc := by
  induction m with
  | zero =>
      intro n x acc hx _
      have hx0 : x = 0 := Nat.lt_one_iff.mp hx
      subst hx0
      rw [reverseBitsAux_zero]
      exact Dvd.intro_left acc (by rw [Nat.sub_zero])
  | succ m ih =>
      intro n x acc hx hn
      obtain ⟨n', rfl⟩ : ∃ n', n = n' + 1 := ⟨n - 1, by omega⟩
      show 2 ^ (n' + 1 - (m + 1)) ∣ reverseBitsAux n' (x / 2) (acc * 2 + x % 2)
      have hx2 : x / 2 < 2 ^ m := by
        have : x < 2 ^ m * 2 := by
          calc x < 2 ^ (m + 1) := hx
          _ = 2 ^ m * 2 := by ring
        omega
      have := ih n' (x / 2) (acc * 2 + x % 2) hx2 (by omega)
      simpa [Nat.succ_sub_succ] using this

lemma reverseBits64_dvd {x : Nat} (hx : x < 2 ^ 11) : 2 ^ 53 ∣ reverseBits64 x := by
  have hmod : x % 2 ^ 64 = x := Nat.mod_eq_of_lt (lt_trans hx (by norm_num))
  have := reverseBitsAux_dvd 11 64 (x % 2 ^ 64) 0 (by rw [hmod]; exact hx) (by norm_num)
  simpa [reverseBits64] using this

lemma land_eq_zero_of_dvd {a m : Nat} (ha : 2 ^ 53 ∣ a) (hm : m < 2 ^ 53) :
    a &&& m = 0 := by
  obtain ⟨k, rfl⟩ := ha
  apply Nat.eq_of_testBit_eq
  intro i
  rw [Nat.testBit_and, Nat.zero_testBit]
  by_cases hi : 53 ≤ i
  · have : m < 2 ^ i := lt_of_lt_of_le hm (Nat.pow_le_pow_right (by norm_num) hi)
    rw [Nat.testBit_lt_two_pow this, Bool.and_false]
  · rw [Nat.testBit_mul_pow_two]
    simp [hi]

lemma MAX_HEAP_SIZE_eq : MAX_HEAP_SIZE = 2 ^ 33 := by decide

/-- Divisors of `MAX_HEAP_SIZE` are powers of two not exceeding `2 ^ 33`. -/
lemma pagesize_pow {p : Nat} (hp : p ∣ MAX_HEAP_SIZE) : ∃ i ≤ 33, p = 2 ^ i := by
  rw [MAX_HEAP_SIZE_eq] at hp
  exact (Nat.dvd_prime_pow Nat.prime_two).mp hp

/-- For any size below `2 ^ 11` and any page size dividing `MAX_HEAP_SIZE`,
the source's `aligned_size` does not change its argument. -/
lemma aligned_size_small {a p : Nat} (ha : a < 2 ^ 11) (hp : p ∣ MAX_HEAP_SIZE) :
    aligned_size a p = a := by
  obtain ⟨i, hi, rfl⟩ := pagesize_pow hp
  have hmask : 2 ^ i - 1 < 2 ^ 53 := by
    have : 2 ^ i ≤ 2 ^ 33 := Nat.pow_le_pow_right (by norm_num) hi
    have : (2 : Nat) ^ 33 ≤ 2 ^ 53 := by norm_num
    omega
  unfold aligned_size
  rw [land_eq_zero_of_dvd (reverseBits64_dvd ha) hmask]
  omega

/-- The size carved for each subheap class, header included, is below `2 ^ 11`. -/
lemma alloc_size_small {c : Nat} (hc : c < SUBHEAP_COUNT) :
    headerSize + block_size_of_subheap c < 2 ^ 11 := by
  have hc' : c < 7 := hc
  interval_cases c <;> decide

/-! ### Behaviour of `extend_active_heap_end` -/

/-- On any error path, `extend_active_heap_end` hands back the state untouched
(both early returns precede every mutation of `self`). -/
lemma extend_error_state {o : SysOracle} {s : AllocatorState} {c : Nat} {e : String}
    {s' : AllocatorState} (h : extend_active_heap_end o s c = (.error e, s')) : s' = s := by
  unfold extend_active_heap_end at h
  simp only [] at h
  split at h
  · injection h with h1 h2; exact h2.symm
  · split at h
    · split at h
      · injection h with h1 h2; exact h2.symm
      · injection h with h1 h2; cases h1
    · injection h with h1 h2; cases h1

/-- Full characterisation of a successful `extend_active_heap_end`. -/
lemma extend_ok_spec {o : SysOracle} {s : AllocatorState} {c : Nat} {a : Nat}
    {s' : AllocatorState} (h : extend_active_heap_end o s c = (.ok a, s')) :
    a = s.active_heap_end ∧
    s'.active_heap_end = s.active_heap_end + (headerSize + block_size_of_subheap c) ∧
    s'.active_heap_end ≤ s.heap_end ∧
    s'.heap_end = s.heap_end ∧
    s'.pagesize = s.pagesize ∧
    s'.free_lists = s.free_lists ∧
    s'.mem = memWrite s.mem s.active_heap_end c ∧
    (if s.commited_heap_end < s.active_heap_end + (headerSize + block_size_of_subheap c) then
      s'.commited_heap_end = s.commited_heap_end +
          aligned_size (headerSize + block_size_of_subheap c) s.pagesize ∧
        sysCommit o s.commited_heap_end
          (aligned_size (headerSize + block_size_of_subheap c) s.pagesize)
          s.prefer_commit_strategy = .ok s'.prefer_commit_strategy
    else
      s'.commited_heap_end = s.commited_heap_end ∧
        s'.prefer_commit_strategy = s.prefer_commit_strategy) := by
  unfold extend_active_heap_end at h
  simp only [] at h
  rw [Nat.add_sub_cancel_left] at h
  split at h
  · injection h with h1 h2; cases h1
  · next hheap =>
    split at h
    · next hcom =>
      split at h
      · injection h with h1 h2; cases h1
      · next strat hcommit =>
        injection h with h1 h2
        cases h1
        subst h2
        refine ⟨rfl, rfl, by simpa using Nat.le_of_not_lt hheap, rfl, rfl, rfl, rfl, ?_⟩
        rw [if_pos hcom]
        exact ⟨rfl, hcommit⟩
    · next hcom =>
      injection h with h1 h2
      cases h1
      subst h2
      refine ⟨rfl, rfl, by simpa using Nat.le_of_not_lt hheap, rfl, rfl, rfl, rfl, ?_⟩
      rw [if_neg hcom]
      exact ⟨rfl, rfl⟩

/-! ### The size-class search of `alloc_by_size` -/

/-- The `for class_of_subheap in 0..SUBHEAP_COUNT` scan finds the smallest
fitting class whenever the request is at most `MAX_BLOCK_SIZE`. -/
lemma find_class_spec {len : Nat} (hlen : len ≤ MAX_BLOCK_SIZE) :
    ∃ c, ((List.range SUBHEAP_COUNT).find? fun k => len ≤ block_size_of_subheap k) = some c ∧
      c < SUBHEAP_COUNT ∧ len ≤ block_size_of_subheap c ∧
      ∀ c', c' < SUBHEAP_COUNT → len ≤ block_size_of_subheap c' → c ≤ c' := by
  have hr : List.range SUBHEAP_COUNT = [0, 1, 2, 3, 4, 5, 6] := by decide
  rw [hr]
  by_cases h0 : len ≤ block_size_of_subheap 0
  · exact ⟨0, by simp [h0], by decide, h0, fun c' _ _ => Nat.zero_le c'⟩
  by_cases h1 : len ≤ block_size_of_subheap 1
  · refine ⟨1, by simp [h0, h1], by decide, h1, ?_⟩
    intro c' _ hle
    by_contra hlt
    push_neg at hlt
    interval_cases c'
    exact h0 hle
  by_cases h2 : len ≤ block_size_of_subheap 2
  · refine ⟨2, by simp [h0, h1, h2], by decide, h2, ?_⟩
    intro c' _ hle
    by_contra hlt
    push_neg at hlt
    interval_cases c'
    · exact h0 hle
    · exact h1 hle
  by_cases h3 : len ≤ block_size_of_subheap 3
  · refine ⟨3, by simp [h0, h1, h2, h3], by decide, h3, ?_⟩
    intro c' _ hle
    by_contra hlt
    push_neg at hlt
    interval_cases c'
    · exact h0 hle
    · exact h1 hle
    · exact h2 hle
  by_cases h4 : len ≤ block_size_of_subheap 4
  · refine ⟨4, by simp [h0, h1, h2, h3, h4], by decide, h4, ?_⟩
    intro c' _ hle
    by_contra hlt
    push_neg at hlt
    interval_cases c'
    · exact h0 hle
    · exact h1 hle
    · exact h2 hle
    · exact h3 hle
  by_cases h5 : len ≤ block_size_of_subheap 5
  · refine ⟨5, by simp [h0, h1, h2, h3, h4, h5], by decide, h5, ?_⟩
    intro c' _ hle
    by_contra hlt
    push_neg at hlt
    interval_cases c'
    · exact h0 hle
    · exact h1 hle
    · exact h2 hle
    · exact h3 hle
    · exact h4 hle
  have h6 : len ≤ block_size_of_subheap 6 := hlen
  refine ⟨6, by simp [h0, h1, h2, h3, h4, h5, h6], by decide, h6, ?_⟩
  intro c' _ hle
  by_contra hlt
  push_neg at hlt
  interval_cases c'
  · exact h0 hle
  · exact h1 hle
  · exact h2 hle
  · exact h3 hle
  · exact h4 hle
  · exact h5 hle

/-- Pooled dispatch: a request `≤ MAX_BLOCK_SIZE` goes to `alloc_on_subheap`
at the smallest fitting class. -/
lemma alloc_by_size_pooled (o : SysOracle) (s : AllocatorState) {len : Nat}
    (hlen : len ≤ MAX_BLOCK_SIZE) :
    ∃ c, c < SUBHEAP_COUNT ∧ len ≤ block_size_of_subheap c ∧
      (∀ c', c' < SUBHEAP_COUNT → len ≤ block_size_of_subheap c' → c ≤ c') ∧
      alloc_by_size o s len = alloc_on_subheap o s c := by
  obtain ⟨c, hfind, hc, hle, hmin⟩ := find_class_spec hlen
  refine ⟨c, hc, hle, hmin, ?_⟩
  unfold alloc_by_size
  rw [if_pos hlen, hfind]

/-! ### Behaviour of `alloc_on_subheap` and `Allocator.free` -/

/-- On error, `alloc_on_subheap` hands back the state untouched. -/
lemma alloc_on_subheap_error {o : SysOracle} {s : AllocatorState} {c : Nat} {e : String}
    {s' : AllocatorState} (h : alloc_on_subheap o s c = (.error e, s')) : s' = s := by
  unfold alloc_on_subheap at h
  split at h
  · split at h
    · next heq =>
      injection h with h1 h2
      subst h2
      exact extend_error_state heq
    · injection h with h1 h2; cases h1
  · injection h with h1 h2; cases h1

/-- A successful `alloc_on_subheap` either pops the free-list head or carves a
fresh block via `extend_active_heap_end`; it returns header address + 8. -/
lemma alloc_on_subheap_ok {o : SysOracle} {s : AllocatorState} {c : Nat} {p : Nat}
    {s' : AllocatorState} (h : alloc_on_subheap o s c = (.ok p, s')) :
    (∃ fp rest, s.free_lists c = fp :: rest ∧ p = fp + headerSize ∧
      s'.mem = s.mem ∧ s'.free_lists = listsWrite s.free_lists c rest ∧
      s'.active_heap_end = s.active_heap_end ∧
      s'.commited_heap_end = s.commited_heap_end ∧
      s'.heap_end = s.heap_end ∧ s'.pagesize = s.pagesize ∧
      s'.prefer_commit_strategy = s.prefer_commit_strategy) ∨
    (s.free_lists c = [] ∧
      ∃ a, extend_active_heap_end o s c = (.ok a, s') ∧ p = a + headerSize) := by
  unfold alloc_on_subheap at h
  split at h
  · next heq =>
    split at h
    · injection h with h1 h2; cases h1
    · next a s₂ hext =>
      injection h with h1 h2
      cases h1
      subst h2
      exact Or.inr ⟨heq, a, hext, rfl⟩
  · next fp rest heq =>
    injection h with h1 h2
    cases h1
    subst h2
    exact Or.inl ⟨fp, rest, heq, rfl, rfl, rfl, rfl, rfl, rfl, rfl, rfl⟩

/-- The function `alloc_on_external` either fails leaving the state untouched, or writes the
header word at the fresh region's base and returns that base. -/
lemma alloc_on_external_cases (o : SysOracle) (s : AllocatorState) (len : Nat) :
    (∃ e, alloc_on_external o s len = (.error e, s)) ∨
    (∃ a, o.allocResult = some a ∧ alloc_on_external o s len =
      (.ok a, { s with mem := memWrite s.mem a (aligned_size (len + headerSize) s.pagesize) })) := by
  unfold alloc_on_external sysAlloc
  cases h : o.allocResult with
  | none => exact Or.inl ⟨"mmap failed", rfl⟩
  | some a => exact Or.inr ⟨a, rfl, rfl⟩

/-- Freeing at a pooled header (value at most `MAX_BLOCK_SIZE`) pushes the block's
header address onto its class's list and reports success. -/
lemma free_pooled_eq {o : SysOracle} {s : AllocatorState} {ptr : Nat}
    (h : s.mem (ptr - headerSize) ≤ MAX_BLOCK_SIZE) :
    Allocator.free o s ptr =
      (.ok (),
       { s with free_lists := (listsWrite s.free_lists (s.mem (ptr - headerSize))
           ((ptr - headerSize) :: s.free_lists (s.mem (ptr - headerSize)))) }) := by
  unfold Allocator.free free_on_subheap
  rw [if_pos h]

/-- Freeing at an external header (value above `MAX_BLOCK_SIZE`) is exactly a
`sys::release` of the recorded size, leaving the allocator state untouched. -/
lemma free_external_eq {o : SysOracle} {s : AllocatorState} {ptr : Nat}
    (h : ¬ s.mem (ptr - headerSize) ≤ MAX_BLOCK_SIZE) :
    Allocator.free o s ptr =
      (sysRelease o (ptr - headerSize) (s.mem (ptr - headerSize)), s) := by
  unfold Allocator.free free_on_external
  rw [if_neg h]

/-! ### Cursor invariants -/

lemma alloc_by_size_inv {o : SysOracle} {s : AllocatorState} {len : Nat}
    {r : Except String Nat} {s' : AllocatorState}
    (hInv : Inv s) (h : alloc_by_size o s len = (r, s')) :
    Inv s' ∧ s.active_heap_end ≤ s'.active_heap_end ∧
      s.commited_heap_end ≤ s'.commited_heap_end := by
  obtain ⟨hac, hch, hhe, hpg⟩ := hInv
  by_cases hlen : len ≤ MAX_BLOCK_SIZE
  · obtain ⟨c, hc, _, _, heq⟩ := alloc_by_size_pooled o s hlen
    rw [heq] at h
    cases r with
    | error e =>
        have : s' = s := alloc_on_subheap_error h
        subst this
        exact ⟨⟨hac, hch, hhe, hpg⟩, le_refl _, le_refl _⟩
    | ok p =>
        rcases alloc_on_subheap_ok h with
          ⟨fp, rest, _, _, _, _, hact, hcom, hhe', hpg', _⟩ | ⟨_, a, hext, _⟩
        · refine ⟨⟨?_, ?_, ?_, ?_⟩, ?_, ?_⟩
          · rw [hact, hcom]; exact hac
          · rw [hcom, hhe']; exact hch
          · rw [hhe']; exact hhe
          · rw [hpg']; exact hpg
          · rw [hact]
          · rw [hcom]
        · obtain ⟨_, hact, hbound, hhe', hpg', _, _, hcond⟩ := extend_ok_spec hext
          have hsz0 : (0 : Nat) < headerSize + block_size_of_subheap c := by
            have : headerSize = 8 := rfl
            omega
          have hlt : s.commited_heap_end <
              s.active_heap_end + (headerSize + block_size_of_subheap c) := by
            omega
          rw [if_pos hlt] at hcond
          obtain ⟨hcom, _⟩ := hcond
          have hsz : aligned_size (headerSize + block_size_of_subheap c) s.pagesize =
              headerSize + block_size_of_subheap c :=
            aligned_size_small (alloc_size_small hc) hpg
          rw [hsz] at hcom
          refine ⟨⟨by omega, by omega, by rw [hhe', hhe], by rw [hpg']; exact hpg⟩,
            by omega, by omega⟩
  · unfold alloc_by_size at h
    rw [if_neg hlen] at h
    rcases alloc_on_external_cases o s len with ⟨e, hcase⟩ | ⟨a, _, hcase⟩
    · rw [hcase] at h
      injection h with h1 h2
      subst h2
      exact ⟨⟨hac, hch, hhe, hpg⟩, le_refl _, le_refl _⟩
    · rw [hcase] at h
      injection h with h1 h2
      subst h2
      exact ⟨⟨hac, hch, hhe, hpg⟩, le_refl _, le_refl _⟩

lemma free_inv {o : SysOracle} {s : AllocatorState} {ptr : Nat}
    {r : Except String Unit} {s' : AllocatorState}
    (hInv : Inv s) (h : Allocator.free o s ptr = (r, s')) :
    Inv s' ∧ s'.active_heap_end = s.active_heap_end ∧
      s'.commited_heap_end = s.commited_heap_end := by
  obtain ⟨hac, hch, hhe, hpg⟩ := hInv
  by_cases hm : s.mem (ptr - headerSize) ≤ MAX_BLOCK_SIZE
  · rw [free_pooled_eq hm] at h
    injection h with h1 h2
    subst h2
    exact ⟨⟨hac, hch, hhe, hpg⟩, rfl, rfl⟩
  · rw [free_external_eq hm] at h
    injection h with h1 h2
    subst h2
    exact ⟨⟨hac, hch, hhe, hpg⟩, rfl, rfl⟩

/-- **C3** The ordering `reservation_start ≤ active_heap_end ≤ commited_heap_end
≤ heap_end` (the reservation start is offset 0, so the first inequality is
automatic over `Nat`) holds after `Allocator::init` and is preserved by every
`alloc_by_size` and `free`; `active_heap_end` and `commited_heap_end` never
decrease across these operations, and `commited_heap_end ≥ active_heap_end`
holds after every `alloc_by_size`, successful or not. -/
theorem cursor_chain_invariant :
    (∀ p s, Allocator.init p = some s →
      Inv s ∧ s.active_heap_end ≤ s.commited_heap_end ∧ s.commited_heap_end ≤ s.heap_end) ∧
    (∀ o s len r s', Inv s → alloc_by_size o s len = (r, s') →
      Inv s' ∧ s'.active_heap_end ≤ s'.commited_heap_end ∧ s'.commited_heap_end ≤ s'.heap_end ∧
      s.active_heap_end ≤ s'.active_heap_end ∧ s.commited_heap_end ≤ s'.commited_heap_end ∧
      (∀ a, r = .ok a → s'.active_heap_end ≤ s'.commited_heap_end)) ∧
    (∀ o s ptr r s', Inv s → Allocator.free o s ptr = (r, s') →
      Inv s' ∧ s'.active_heap_end ≤ s'.commited_heap_end ∧ s'.commited_heap_end ≤ s'.heap_end ∧
      s.active_heap_end ≤ s'.active_heap_end ∧ s.commited_heap_end ≤ s'.commited_heap_end) := by
  refine ⟨?_, ?_, ?_⟩
  · intro p s h
    unfold Allocator.init at h
    split at h
    · next hmod =>
      injection h with h1
      subst h1
      refine ⟨⟨rfl, Nat.zero_le _, rfl, ?_⟩, le_refl _, Nat.zero_le _⟩
      exact Nat.dvd_iff_mod_eq_zero.mpr hmod
    · cases h
  · intro o s len r s' hInv h
    obtain ⟨hInv', hmona, hmonc⟩ := alloc_by_size_inv hInv h
    exact ⟨hInv', le_of_eq hInv'.1, hInv'.2.1, hmona, hmonc, fun _ _ => le_of_eq hInv'.1⟩
  · intro o s ptr r s' hInv h
    obtain ⟨hInv', hea, hec⟩ := free_inv hInv h
    exact ⟨hInv', le_of_eq hInv'.1, hInv'.2.1, le_of_eq hea.symm, le_of_eq hec.symm⟩

/-- Popping an explicit free-list head. -/
lemma alloc_on_subheap_cons {o : SysOracle} {s : AllocatorState} {c fp : Nat}
    {rest : List Nat} (h : s.free_lists c = fp :: rest) :
    alloc_on_subheap o s c = (.ok (fp + headerSize),
      { s with free_lists := listsWrite s.free_lists c rest }) := by
  unfold alloc_on_subheap
  rw [h]

/-- Any successful pooled allocation returns an address 8 past a header word
holding exactly the requested class (fresh carve writes it; a popped node kept
it from when it was carved, by `WFfree`). -/
lemma alloc_on_subheap_header {o : SysOracle} {s : AllocatorState} {c p : Nat}
    {s' : AllocatorState} (hWF : WFfree s) (h : alloc_on_subheap o s c = (.ok p, s')) :
    headerSize ≤ p ∧ s'.mem (p - headerSize) = c := by
  rcases alloc_on_subheap_ok h with
    ⟨fp, rest, hfl, hp, hmem, _⟩ | ⟨_, a, hext, hp⟩
  · subst hp
    refine ⟨Nat.le_add_left _ _, ?_⟩
    rw [Nat.add_sub_cancel, hmem]
    exact hWF c fp (hfl ▸ List.mem_cons_self fp rest)
  · obtain ⟨ha, _, _, _, _, _, hmem, _⟩ := extend_ok_spec hext
    subst hp
    refine ⟨Nat.le_add_left _ _, ?_⟩
    rw [Nat.add_sub_cancel, hmem, ha]
    simp [memWrite]

/-- Any request of at most 16 bytes (including 0) lands in class 0. -/
lemma alloc_small_class_zero (o : SysOracle) (s : AllocatorState) {n : Nat} (hn : n ≤ 16) :
    alloc_by_size o s n = alloc_on_subheap o s 0 := by
  have hmax : n ≤ MAX_BLOCK_SIZE := by
    have : MAX_BLOCK_SIZE = 1024 := by decide
    omega
  obtain ⟨c, hc, hle, hmin, heq⟩ := alloc_by_size_pooled o s hmax
  have h0 : n ≤ block_size_of_subheap 0 := by
    have : block_size_of_subheap 0 = 16 := by decide
    omega
  have hc0 : c = 0 := Nat.le_zero.mp (hmin 0 (by decide) h0)
  rw [heq, hc0]

/-- **C5** For every request `n` with `0 < n ≤ MAX_BLOCK_SIZE` and any
well-formed state, a successful `alloc_by_size n` returns an address whose
immediately preceding header word is a class index `c` with
`block_size_of_subheap c ≥ n`, and `c` is the smallest such class — whether the
block was popped from a free list or freshly carved. -/
theorem pooled_alloc_header_smallest_class :
    ∀ o s n p s', 0 < n → n ≤ MAX_BLOCK_SIZE → WFfree s →
      alloc_by_size o s n = (.ok p, s') →
      ∃ c, s'.mem (p - headerSize) = c ∧ c < SUBHEAP_COUNT ∧
        n ≤ block_size_of_subheap c ∧
        ∀ c', c' < SUBHEAP_COUNT → n ≤ block_size_of_subheap c' → c ≤ c' := by
  intro o s n p s' _ hmax hWF h
  obtain ⟨c, hc, hle, hmin, heq⟩ := alloc_by_size_pooled o s hmax
  rw [heq] at h
  obtain ⟨_, hmem⟩ := alloc_on_subheap_header hWF h
  exact ⟨c, hmem, hc, hle, hmin⟩

theorem pooled_alloc_header_smallest_class_witness :
    ∃ c, (alloc_by_size okOracle initState 8).2.mem (8 - headerSize) = c ∧
      c < SUBHEAP_COUNT ∧ (8 : Nat) ≤ block_size_of_subheap c ∧
      ∀ c', c' < SUBHEAP_COUNT → (8 : Nat) ≤ block_size_of_subheap c' → c ≤ c' :=
  pooled_alloc_header_smallest_class okOracle initState 8 8
    (alloc_by_size okOracle initState 8).2 (by decide) (by decide)
    (fun _ a ha => absurd ha (List.not_mem_nil a)) rfl

/-- **C9** A zero-byte request is not rejected: `alloc_by_size 0` is dispatched
to the pooled path on class 0 (block size 16), exactly like every request of
1 through 16 bytes, and a successful result carries class index 0 in its
preceding header word. -/
theorem zero_size_alloc_class_zero :
    ∀ o s, alloc_by_size o s 0 = alloc_on_subheap o s 0 ∧
      (∀ n, 0 < n → n ≤ 16 → alloc_by_size o s n = alloc_by_size o s 0) ∧
      block_size_of_subheap 0 = 16 ∧
      (∀ p s', WFfree s → alloc_by_size o s 0 = (.ok p, s') →
        s'.mem (p - headerSize) = 0) := by
  intro o s
  refine ⟨alloc_small_class_zero o s (by decide), ?_, by decide, ?_⟩
  · intro n _ hn
    rw [alloc_small_class_zero o s hn, alloc_small_class_zero o s (by decide)]
  · intro p s' hWF h
    rw [alloc_small_class_zero o s (by decide)] at h
    exact (alloc_on_subheap_header hWF h).2

theorem zero_size_alloc_class_zero_witness :
    alloc_by_size okOracle initState 0 = alloc_on_subheap okOracle initState 0 ∧
    (alloc_by_size okOracle initState 0).2.mem (8 - headerSize) = 0 :=
  ⟨(zero_size_alloc_class_zero okOracle initState).1,
    (zero_size_alloc_class_zero okOracle initState).2.2.2 8
      (alloc_by_size okOracle initState 0).2
      (fun _ a ha => absurd ha (List.not_mem_nil a)) rfl⟩

theorem cursor_chain_invariant_witness :
    Inv ((alloc_by_size okOracle initState 8).2) ∧
    (alloc_by_size okOracle initState 8).2.active_heap_end ≤
      (alloc_by_size okOracle initState 8).2.commited_heap_end ∧
    (alloc_by_size okOracle initState 8).2.commited_heap_end ≤
      (alloc_by_size okOracle initState 8).2.heap_end ∧
    initState.active_heap_end ≤ (alloc_by_size okOracle initState 8).2.active_heap_end ∧
    initState.commited_heap_end ≤ (alloc_by_size okOracle initState 8).2.commited_heap_end ∧
    (∀ a, (alloc_by_size okOracle initState 8).1 = .ok a →
      (alloc_by_size okOracle initState 8).2.active_heap_end ≤
        (alloc_by_size okOracle initState 8).2.commited_heap_end) :=
  cursor_chain_invariant.2.1 okOracle initState 8
    (alloc_by_size okOracle initState 8).1 (alloc_by_size okOracle initState 8).2
    ⟨rfl, Nat.zero_le _, rfl, ⟨2097152, by decide⟩⟩ rfl

/-- **C6** Whenever `alloc_by_size` reports an error — address-space
exhaustion, failure of both commit strategies, or a failed external mapping —
the returned state is exactly the input state: no cursor, free list,
preferred-strategy or memory change survives a failure. -/
theorem alloc_failure_leaves_state_unchanged :
    ∀ o s len e s', alloc_by_size o s len = (.error e, s') → s' = s := by
  intro o s len e s' h
  by_cases hlen : len ≤ MAX_BLOCK_SIZE
  · obtain ⟨c, _, _, _, heq⟩ := alloc_by_size_pooled o s hlen
    rw [heq] at h
    exact alloc_on_subheap_error h
  · unfold alloc_by_size at h
    rw [if_neg hlen] at h
    rcases alloc_on_external_cases o s len with ⟨e', hcase⟩ | ⟨a, _, hcase⟩
    · rw [hcase] at h
      injection h with _ h2
      exact h2.symm
    · rw [hcase] at h
      injection h with h1
      cases h1

theorem alloc_failure_leaves_state_unchanged_witness :
    (alloc_by_size okOracle exhaustedState 8).2 = exhaustedState ∧
    (alloc_by_size noCommitOracle initState 8).2 = initState :=
  ⟨alloc_failure_leaves_state_unchanged okOracle exhaustedState 8
      "Failed to extend heap size." (alloc_by_size okOracle exhaustedState 8).2 rfl,
    alloc_failure_leaves_state_unchanged noCommitOracle initState 8
      "commit failed" (alloc_by_size noCommitOracle initState 8).2 rfl⟩

/-- **C10** `Allocator.free` on a pooled block (header word ≤ `MAX_BLOCK_SIZE`)
always succeeds, in every state; an error can only arise on the external path,
from a failing `munmap`, with a header word above `MAX_BLOCK_SIZE`. -/
theorem free_pooled_never_errors :
    ∀ o s ptr,
      (s.mem (ptr - headerSize) ≤ MAX_BLOCK_SIZE →
        (Allocator.free o s ptr).1 = .ok ()) ∧
      (∀ e, (Allocator.free o s ptr).1 = .error e →
        MAX_BLOCK_SIZE < s.mem (ptr - headerSize) ∧ o.releaseOk = false) := by
  intro o s ptr
  constructor
  · intro h
    rw [free_pooled_eq h]
  · intro e h
    by_cases hm : s.mem (ptr - headerSize) ≤ MAX_BLOCK_SIZE
    · rw [free_pooled_eq hm] at h
      cases h
    · rw [free_external_eq hm] at h
      refine ⟨Nat.lt_of_not_le hm, ?_⟩
      unfold sysRelease at h
      by_cases hr : o.releaseOk = true
      · rw [if_pos hr] at h
        cases h
      · exact Bool.not_eq_true _ ▸ hr

theorem free_pooled_never_errors_witness :
    (Allocator.free okOracle initState 8).1 = .ok () ∧
    (MAX_BLOCK_SIZE < externalHeaderState.mem (8 - headerSize) ∧
      noReleaseOracle.releaseOk = false) :=
  ⟨(free_pooled_never_errors okOracle initState 8).1 (by decide),
    (free_pooled_never_errors noReleaseOracle externalHeaderState 8).2
      "munmap failed" rfl⟩

/-- **C7** `sys::commit` tries `mprotect` first exactly when the preferred
strategy ranks at or above it (i.e. is `Mprotect`, the minimum of the derived
order): if preferred and successful the result is `Mprotect`; when `mprotect`
fails or is not preferred, it falls back to the fixed remap and reports
`MmapFixed`; it errs only when the fallback also fails; with preference
`MmapFixed` the outcome ignores `mprotect` entirely.  On a successful commit
inside `extend_active_heap_end`, the strategy `sys::commit` returned is stored
as the new preferred strategy. -/
theorem commit_strategy_fallback :
    (∀ o addr len, o.mprotectOk = true →
      sysCommit o addr len .Mprotect = .ok .Mprotect) ∧
    (∀ o addr len prefer, (o.mprotectOk = false ∨ prefer = .MmapFixed) →
      o.mmapFixedOk = true → sysCommit o addr len prefer = .ok .MmapFixed) ∧
    (∀ o addr len prefer e, sysCommit o addr len prefer = .error e →
      o.mmapFixedOk = false ∧ (prefer = .MmapFixed ∨ o.mprotectOk = false)) ∧
    (∀ o addr len b, sysCommit { o with mprotectOk := b } addr len .MmapFixed =
      sysCommit o addr len .MmapFixed) ∧
    (∀ o s c a s', extend_active_heap_end o s c = (.ok a, s') →
      s.commited_heap_end < s.active_heap_end + (headerSize + block_size_of_subheap c) →
      sysCommit o s.commited_heap_end
        (aligned_size (headerSize + block_size_of_subheap c) s.pagesize)
        s.prefer_commit_strategy = .ok s'.prefer_commit_strategy) := by
  refine ⟨?_, ?_, ?_, ?_, ?_⟩
  · intro o addr len h
    unfold sysCommit
    rw [if_pos ⟨rfl, h⟩]
  · intro o addr len prefer hnot h
    unfold sysCommit
    rcases hnot with hm | hp
    · rw [if_neg (by simp [hm]), if_pos h]
    · subst hp
      rw [if_neg (by simp [CommitStrategy.le]), if_pos h]
  · intro o addr len prefer e h
    unfold sysCommit at h
    split at h
    · cases h
    · next hfirst =>
      split at h
      · cases h
      · next hmmap =>
        refine ⟨Bool.not_eq_true _ ▸ hmmap, ?_⟩
        cases prefer with
        | MmapFixed => exact Or.inl rfl
        | Mprotect =>
            refine Or.inr ?_
            by_contra hb
            exact hfirst ⟨rfl, by simpa using hb⟩
  · intro o addr len b
    unfold sysCommit
    simp [CommitStrategy.le]
  · intro o s c a s' hext hlt
    obtain ⟨_, _, _, _, _, _, _, hcond⟩ := extend_ok_spec hext
    rw [if_pos hlt] at hcond
    exact hcond.2

theorem commit_strategy_fallback_witness :
    sysCommit okOracle 0 4096 .Mprotect = .ok .Mprotect ∧
    sysCommit okOracle 0
        (aligned_size (headerSize + block_size_of_subheap 0) initState.pagesize)
        initState.prefer_commit_strategy =
      .ok ((extend_active_heap_end okOracle initState 0).2.prefer_commit_strategy) :=
  ⟨commit_strategy_fallback.1 okOracle 0 4096 rfl,
    commit_strategy_fallback.2.2.2.2 okOracle initState 0 0
      (extend_active_heap_end okOracle initState 0).2 rfl (by decide)⟩

/-- **C8** Starting from any free-list-well-formed state: a pooled
`alloc_by_size 8` returning `p`, followed by `free p`, followed by another
`alloc_by_size 8`, hands back exactly `p` — the free pushed the block's header
address onto the head of class 0's list and the second allocation pops that
head. -/
theorem free_then_alloc_returns_same_address :
    ∀ o1 o2 o3 s p s1 u s2, WFfree s →
      alloc_by_size o1 s 8 = (.ok p, s1) →
      Allocator.free o2 s1 p = (u, s2) →
      (alloc_by_size o3 s2 8).1 = .ok p := by
  intro o1 o2 o3 s p s1 u s2 hWF h1 h2
  rw [alloc_small_class_zero o1 s (by decide)] at h1
  obtain ⟨hp8, hmem⟩ := alloc_on_subheap_header hWF h1
  rw [free_pooled_eq (le_of_eq_of_le hmem (by decide))] at h2
  injection h2 with _ h2s
  subst h2s
  rw [alloc_small_class_zero o3 _ (by decide)]
  have hcons : ({ s1 with free_lists := (listsWrite s1.free_lists (s1.mem (p - headerSize))
      ((p - headerSize) :: s1.free_lists (s1.mem (p - headerSize)))) } :
        AllocatorState).free_lists 0 = (p - headerSize) ::
          s1.free_lists (s1.mem (p - headerSize)) := by
    show listsWrite s1.free_lists (s1.mem (p - headerSize)) _ 0 = _
    rw [hmem]
    simp [listsWrite]
  rw [alloc_on_subheap_cons hcons]
  show Except.ok (p - headerSize + headerSize) = Except.ok p
  have : p - headerSize + headerSize = p := Nat.sub_add_cancel hp8
  rw [this]

theorem free_then_alloc_returns_same_address_witness :
    (alloc_by_size okOracle
      ((Allocator.free okOracle ((alloc_by_size okOracle initState 8).2) 8).2) 8).1 =
      .ok 8 :=
  free_then_alloc_returns_same_address okOracle okOracle okOracle initState 8
    (alloc_by_size okOracle initState 8).2
    (Allocator.free okOracle ((alloc_by_size okOracle initState 8).2) 8).1
    (Allocator.free okOracle ((alloc_by_size okOracle initState 8).2) 8).2
    (fun _ a ha => absurd ha (List.not_mem_nil a)) rfl rfl

/-- **C1** (refuting the claim; code bug) On the external path the source
returns `allocated_ptr.cast()` — the base of the fresh region, where it just
wrote the Header — instead of the address one Header past the base as the
subheap path does: for `alloc_by_size 1025` from `initState` with the region
mapped at 8192, the call returns 8192, the Header (value 1033
`> MAX_BLOCK_SIZE`) sits at 8192 itself, and the word immediately preceding
the returned address reads 0, a value `≤ MAX_BLOCK_SIZE` — so `free` would
misroute this allocation. -/
theorem external_alloc_returns_header_address :
    (alloc_by_size okOracle initState 1025).1 = .ok 8192 ∧
    (alloc_by_size okOracle initState 1025).2.mem 8192 = 1033 ∧
    MAX_BLOCK_SIZE < 1033 ∧
    (alloc_by_size okOracle initState 1025).2.mem (8192 - headerSize) = 0 ∧
    (alloc_by_size okOracle initState 1025).2.mem (8192 - headerSize) ≤ MAX_BLOCK_SIZE :=
  ⟨rfl, by decide, by decide, by decide, by decide⟩

/-- **C2** (refuting the claim; code bug) For the external request `n = 1025`
with page size 4096, the recorded total size is
`aligned_size (1025 + 8) 4096 = 1033` — the `reverse_bits` trick adds nothing
for any realistic size — while `n + headerSize` rounded up to the next whole
multiple of the page size is 4096: the header value is not page-rounded (1033
is not a multiple of 4096, being a nonzero value below it). -/
theorem external_size_not_page_rounded :
    (alloc_by_size okOracle initState 1025).2.mem 8192 = 1033 ∧
    aligned_size (1025 + headerSize) initState.pagesize = 1033 ∧
    initState.pagesize = 4096 ∧
    1033 % 4096 = 1033 ∧ 0 < 1033 ∧ 1033 < 4096 :=
  ⟨by decide, by decide, rfl, by decide, by decide, by decide⟩

/-- **C4** (refuting the claim; code bug) In pooled growth from `initState`
(page size 4096, both cursors at 0), carving one class-0 block makes
`extend_active_heap_end` commit only 24 bytes — `aligned_size` performs no
page rounding, so the committed length is the raw block-plus-header size, not
the page-rounded shortfall 4096 — and because the committed cursor therefore
never runs ahead of the bump cursor, the very next small allocation crosses it
again and invokes the OS commit once more (committed cursor 24, then 48),
instead of only when a page boundary is crossed. -/
theorem commit_length_not_page_rounded :
    (extend_active_heap_end okOracle initState 0).2.commited_heap_end = 24 ∧
    initState.commited_heap_end = 0 ∧
    initState.pagesize = 4096 ∧
    24 % 4096 = 24 ∧ 0 < 24 ∧ 24 < 4096 ∧
    (alloc_by_size okOracle initState 8).2.commited_heap_end = 24 ∧
    (alloc_by_size okOracle ((alloc_by_size okOracle initState 8).2) 8).2.commited_heap_end
      = 48 :=
  ⟨by decide, rfl, rfl, by decide, by decide, by decide, by decide, by decide⟩

end FreelistAlloc
